import Mathlib

/-!
Shallow embedding of the analysis core of the inmet-belem repository.

The definitions below transcribe, function by function, the parts of
`analise1.py` and `analise_temperatura_detalhada.py` that the verified
claims are about:

* `clean_col_name` (header normalization, `analise1.py` lines 26-33 and the
  identical copy in `analise_maio_9h10h.py` lines 20-27);
* the column-handling skeleton of `load_data` (`analise1.py` lines 36-63);
* `missing_report` (`analise1.py` lines 73-77);
* `daily_aggregates` (`analise1.py` lines 80-96);
* `detectar_ondas_calor` / `detectar_ondas_frio`
  (`analise_temperatura_detalhada.py` lines 267-373).

Machine floats are modelled as `ℚ`, with `Option ℚ` where pandas uses NaN
as a missing-value marker (`none` = NaN); timestamps are modelled at the
granularity the aggregations use, as `Int` day ordinals, with `Option Int`
where a row's timestamp can be NaT.
-/

/-! ### Character-level helpers for header normalization -/

/-- Test for the regex character class `[0-9a-zA-Z]` used by
`re.sub(r"[^0-9a-zA-Z]+", '_', col)`: ASCII digits and letters only. -/
def isAsciiAlnum (c : Char) : Bool :=
  (('0' ≤ c && c ≤ '9') || ('a' ≤ c && c ≤ 'z') || ('A' ≤ c && c ≤ 'Z'))

/-- The replacement character U+FFFD that appears (twice) in the source of
`clean_col_name` as the mojibake byte to repair. -/
def mojibakeChar : Char := Char.ofNat 65533

/-- One `col.replace('�', 'o')` step (the source applies it twice). -/
def trocaMojibake (l : List Char) : List Char :=
  l.map fun c => if c = mojibakeChar then 'o' else c

/-- Embedding of `re.sub(r"[^0-9a-zA-Z]+", '_', col)`: every maximal run of
characters outside `[0-9a-zA-Z]` is replaced by a single underscore. -/
def subNonAlnum : List Char → List Char
  | [] => []
  | c :: cs =>
    if isAsciiAlnum c then c :: subNonAlnum cs
    else '_' :: subNonAlnum (cs.dropWhile fun d => !isAsciiAlnum d)
termination_by l => l.length
decreasing_by
  · simp only [List.length_cons]
    omega
  · simp only [List.length_cons]
    exact Nat.lt_succ_of_le (List.dropWhile_sublist _).length_le

/-- Embedding of Python `str.strip('_')`: drop leading and trailing
underscores. -/
def stripSublinhados (l : List Char) : List Char :=
  ((l.dropWhile fun c => c = '_').reverse.dropWhile fun c => c = '_').reverse

/-- Embedding of Python `str.lower()`. At the point the source applies it the
string contains only ASCII alphanumerics and underscores (everything else was
just replaced by `_`), on which `str.lower` is the ASCII lowercase map; the
definition below is that map, total on `Char`. -/
def pyLower (c : Char) : Char :=
  if 65 ≤ c.toNat ∧ c.toNat ≤ 90 then Char.ofNat (c.toNat + 32) else c

/-- Embedding of `clean_col_name` (`analise1.py` lines 26-33, identical copy
in `analise_maio_9h10h.py`), on character lists: two mojibake `replace`
steps, the regex substitution, `strip('_')`, then `lower()`. -/
def cleanChars (l : List Char) : List Char :=
  (stripSublinhados (subNonAlnum (trocaMojibake (trocaMojibake l)))).map pyLower

/-- Embedding of `clean_col_name` on strings. -/
def clean_col_name (s : String) : String :=
  String.mk (cleanChars s.data)

/-! ### Series helpers (pandas semantics on `Option ℚ` values) -/

/-- The non-null values of a value list, in order (the pandas `skipna` view
of a series; `none` models NaN). -/
def soValidos (l : List (Option ℚ)) : List ℚ :=
  l.filterMap id

/-- pandas `Series.max()` with `skipna`: `none` (NaN) when there is no
non-null value. -/
def serieMax : List ℚ → Option ℚ
  | [] => none
  | x :: xs => some (xs.foldl max x)

/-- pandas `Series.min()` with `skipna`: `none` (NaN) when there is no
non-null value. -/
def serieMin : List ℚ → Option ℚ
  | [] => none
  | x :: xs => some (xs.foldl min x)

/-- pandas `Series.mean()` with `skipna`: arithmetic mean of the non-null
values, `none` (NaN) when there are none. -/
def serieMean : List ℚ → Option ℚ
  | [] => none
  | x :: xs => some (((x :: xs).sum) / ((x :: xs).length : ℚ))

/-- pandas `Series.sum()` with its default `min_count=0`: the sum of the
non-null values, which is `0.0` — not NaN — when there are none. -/
def serieSum (l : List ℚ) : ℚ :=
  l.sum

/-! ### Embedding of `analise1.py` -/

/-- A parsed row of the `analise1.py` DataFrame, reduced to the fields that
`daily_aggregates` touches: the composite timestamp at day granularity
(`none` = NaT, from the `errors='coerce'` fallback of `pd.to_datetime`), the
first precipitation column and the first temperature column (`none` = NaN
from `pd.to_numeric(..., errors='coerce')`). -/
structure Registro where
  datetime : Option Int
  precip : Option ℚ
  temp : Option ℚ
deriving Repr, DecidableEq

/-- The rows that carry a real timestamp, keyed by their day: `resample`
drops NaT-indexed rows, and `df2.index.min()` / `.max()` ignore NaT. -/
def comData (rows : List Registro) : List (Int × Registro) :=
  rows.filterMap fun r => r.datetime.map fun d => (d, r)

/-- Smallest element of a day list (`df2.index.min().date()`); the `[]` case
is never reached when some row has a non-null timestamp. -/
def diaMinimo : List Int → Int
  | [] => 0
  | d :: ds => ds.foldl min d

/-- Largest element of a day list (`df2.index.max().date()`). -/
def diaMaximo : List Int → Int
  | [] => 0
  | d :: ds => ds.foldl max d

/-- One output row of `daily_aggregates`: the `pd.date_range` index entry and
the four derived columns. `precip_total_sum_mm` is a bare `ℚ` because
`.resample('D').sum()` always produces a number (0.0 for an empty day),
while mean/max/min produce NaN for an empty day. -/
structure AgregadoDiario where
  dia : Int
  precip_total_sum_mm : ℚ
  temp_mean_c : Option ℚ
  temp_max_c : Option ℚ
  temp_min_c : Option ℚ
deriving Repr, DecidableEq

/-- Embedding of `daily_aggregates` (`analise1.py` lines 80-96) for a frame
having one precipitation and one temperature column: one row per calendar
day of `pd.date_range(min_date, max_date, freq='D')`, carrying the daily
`sum` of precipitation and the daily `mean`/`max`/`min` of temperature over
that day's rows. On an input whose rows all have NaT timestamps pandas
raises from `pd.date_range(NaT, NaT)`; that unreachable branch is modelled
as `[]`. -/
def daily_aggregates (rows : List Registro) : List AgregadoDiario :=
  let datados := comData rows
  if datados = [] then []
  else
    let lo := diaMinimo (datados.map Prod.fst)
    let hi := diaMaximo (datados.map Prod.fst)
    (List.range (hi - lo + 1).toNat).map fun i =>
      let d := lo + (i : Int)
      let doDia := datados.filter fun p => p.1 == d
      { dia := d
        precip_total_sum_mm := serieSum (soValidos (doDia.map fun p => p.2.precip))
        temp_mean_c := serieMean (soValidos (doDia.map fun p => p.2.temp))
        temp_max_c := serieMax (soValidos (doDia.map fun p => p.2.temp))
        temp_min_c := serieMin (soValidos (doDia.map fun p => p.2.temp)) }

/-- A row of the frame as `missing_report` sees it: the timestamp column and
the value columns, one `Option ℚ` per variable (`none` = NaN). -/
structure Linha where
  datetime : Option Int
  valores : List (Option ℚ)
deriving Repr, DecidableEq

/-- The `df.isna()` indicator for variable column `j` of a row. -/
def isnaEm (r : Linha) (j : Nat) : Bool :=
  (r.valores.getD j none).isNone

/-- The `missing_count` entry of `missing_report` (`analise1.py` line 74)
for variable column `j`: `df.isna().sum()` down that column. -/
def null_count (df : List Linha) (j : Nat) : Nat :=
  (df.map fun r => if isnaEm r j then 1 else 0).sum

/-- The `missing_pct` entry of `missing_report` (`analise1.py` line 75) for
variable column `j`: `missing_count / len(df) * 100`. -/
def null_pct (df : List Linha) (j : Nat) : ℚ :=
  (null_count df j : ℚ) / (df.length : ℚ) * 100

/-- Result of the column-handling skeleton of `load_data`: the frame's
column list after header normalization and optional `datetime` creation. -/
structure TabelaCarregada where
  colunas : List String
deriving Repr, DecidableEq

/-- Embedding of the column logic of `load_data` (`analise1.py` lines
36-63): normalize every header, and only when both the `data` and the
`hora_utc` logical fields are present build the extra `datetime` column.
The function is modelled in `Except` to expose its error behavior: no
branch produces an error — when the required fields are absent the frame is
returned unchanged, without a `datetime` column. -/
def load_data (colunas_brutas : List String) : Except String TabelaCarregada :=
  let cols := colunas_brutas.map clean_col_name
  if cols.contains "data" && cols.contains "hora_utc" then
    Except.ok ⟨cols ++ ["datetime"]⟩
  else
    Except.ok ⟨cols⟩

/-! ### Embedding of the extreme-event detector
(`analise_temperatura_detalhada.py`) -/

/-- A day of the detector's input: the `Data` key (day ordinal) and the
temperature value (`none` = NaN). -/
abbrev DiaValor := Int × Option ℚ

/-- The distinct `Data` keys in ascending order — the index that
`df.groupby('Data')` produces. -/
def diasDistintos (rows : List DiaValor) : List Int :=
  List.insertionSort (· ≤ ·) (rows.map Prod.fst).dedup

/-- Embedding of `self.df.groupby('Data')[self.temp_col].mean()` (line 278):
for each distinct day, in ascending order, the mean of that day's non-null
values (NaN when the day has only null values). Days with no row at all do
not appear. -/
def temp_diaria (rows : List DiaValor) : List DiaValor :=
  (diasDistintos rows).map fun d =>
    (d, serieMean (soValidos ((rows.filter fun r => r.1 == d).map Prod.snd)))

/-- Embedding of pandas `Series.quantile(q)` (default linear interpolation):
sort the non-null values, take `pos = q * (n - 1)`, and interpolate between
the neighbouring order statistics; NaN (`none`) on an empty series. -/
def quantileLinear (xs : List ℚ) (q : ℚ) : Option ℚ :=
  match List.insertionSort (· ≤ ·) xs with
  | [] => none
  | y :: ys =>
    let s := y :: ys
    let n := s.length
    let pos := q * ((n : ℚ) - 1)
    let i := (⌊pos⌋).toNat
    let a := s.getD i 0
    let b := s.getD (min (i + 1) (n - 1)) 0
    some (a + (pos - (i : ℚ)) * (b - a))

/-- The day-qualifies test of the heat scan, `temp_diaria > limiar`
(line 281): pandas comparison against NaN — on either side — is `False`,
so a null threshold or a null value never qualifies. -/
def acimaDe (limiar : Option ℚ) (v : Option ℚ) : Bool :=
  match limiar, v with
  | some l, some x => decide (l < x)
  | _, _ => false

/-- The day-qualifies test of the cold scan, `temp_diaria < limiar`
(line 335). -/
def abaixoDe (limiar : Option ℚ) (v : Option ℚ) : Bool :=
  match limiar, v with
  | some l, some x => decide (x < l)
  | _, _ => false

/-- Embedding of the Python label slice `temp_diaria[inicio:fim]` (lines
296-297): inclusive on both ends; a `None` lower label means "from the
beginning". -/
def fatiaDias (td : List DiaValor) (inicio : Option Int) (fim : Int) : List DiaValor :=
  td.filter fun p =>
    (match inicio with
     | none => true
     | some s => decide (s ≤ p.1)) && decide (p.1 ≤ fim)

/-- One detected heat wave (the dict built at lines 298-304). -/
structure OndaCalor where
  inicio : Option Int
  fim : Int
  duracao : Nat
  temp_max : Option ℚ
  temp_media : Option ℚ
deriving Repr, DecidableEq

/-- One detected cold wave (the dict built at lines 352-358). -/
structure OndaFrio where
  inicio : Option Int
  fim : Int
  duracao : Nat
  temp_min : Option ℚ
  temp_media : Option ℚ
deriving Repr, DecidableEq

/-- The scan loop of `detectar_ondas_calor` (lines 284-306), transcribed
statement for statement. `td` is the full daily series (used by the label
slice), `resto` the part still to scan, and `(inicio, duracao)` the open-run
state. A qualifying day extends the run (setting `inicio` on its first
day); a non-qualifying day closes it, emitting an event when the run
reached `dias` days, with `fim` = breaking day minus one and the statistics
taken over the label slice `td[inicio:fim]`. Nothing is emitted when the
input ends. -/
def varreduraCalor (td : List DiaValor) (limiar : Option ℚ) (dias : Nat) :
    List DiaValor → Option Int → Nat → List OndaCalor
  | [], _, _ => []
  | (data, v) :: resto, inicio, duracao =>
    if acimaDe limiar v then
      varreduraCalor td limiar dias resto (some (inicio.getD data)) (duracao + 1)
    else
      (if dias ≤ duracao then
        let fim := data - 1
        let trecho := soValidos ((fatiaDias td inicio fim).map Prod.snd)
        [{ inicio := inicio, fim := fim, duracao := duracao,
           temp_max := serieMax trecho, temp_media := serieMean trecho }]
      else []) ++ varreduraCalor td limiar dias resto none 0

/-- The scan loop of `detectar_ondas_frio` (lines 338-360), identical to the
heat loop except for the qualification test and the `min` statistic. -/
def varreduraFrio (td : List DiaValor) (limiar : Option ℚ) (dias : Nat) :
    List DiaValor → Option Int → Nat → List OndaFrio
  | [], _, _ => []
  | (data, v) :: resto, inicio, duracao =>
    if abaixoDe limiar v then
      varreduraFrio td limiar dias resto (some (inicio.getD data)) (duracao + 1)
    else
      (if dias ≤ duracao then
        let fim := data - 1
        let trecho := soValidos ((fatiaDias td inicio fim).map Prod.snd)
        [{ inicio := inicio, fim := fim, duracao := duracao,
           temp_min := serieMin trecho, temp_media := serieMean trecho }]
      else []) ++ varreduraFrio td limiar dias resto none 0

/-- The threshold of `detectar_ondas_calor` (line 274):
`self.df[self.temp_col].quantile(limiar_percentil / 100)` — the percentile
of the raw hourly series, NaNs excluded by pandas. -/
def limiarCalor (rows : List DiaValor) (limiar_percentil : ℚ) : Option ℚ :=
  quantileLinear (soValidos (rows.map Prod.snd)) (limiar_percentil / 100)

/-- Embedding of `detectar_ondas_calor` (lines 267-319): compute the
threshold from the raw hourly series, reduce the series to daily means,
then run the scan loop from an empty open-run state. The Python defaults
are `limiar_percentil = 90`, `dias_consecutivos = 3`. -/
def detectar_ondas_calor (rows : List DiaValor) (limiar_percentil : ℚ)
    (dias_consecutivos : Nat) : List OndaCalor :=
  varreduraCalor (temp_diaria rows) (limiarCalor rows limiar_percentil)
    dias_consecutivos (temp_diaria rows) none 0

/-- The threshold of `detectar_ondas_frio` (line 328). -/
def limiarFrio (rows : List DiaValor) (limiar_percentil : ℚ) : Option ℚ :=
  quantileLinear (soValidos (rows.map Prod.snd)) (limiar_percentil / 100)

/-- Embedding of `detectar_ondas_frio` (lines 321-373). The Python defaults
are `limiar_percentil = 10`, `dias_consecutivos = 3`. -/
def detectar_ondas_frio (rows : List DiaValor) (limiar_percentil : ℚ)
    (dias_consecutivos : Nat) : List OndaFrio :=
  varreduraFrio (temp_diaria rows) (limiarFrio rows limiar_percentil)
    dias_consecutivos (temp_diaria rows) none 0

/-! ### Specification-side vocabulary and concrete inputs used by the
claims -/

/-- The character class the spec asserts for normalized headers: lowercase
ASCII alphanumeric or underscore. -/
def charSaidaOk (c : Char) : Bool :=
  (('0' ≤ c && c ≤ '9') || ('a' ≤ c && c ≤ 'z') || c = '_')

/-- Underscore separation between adjacent characters: an underscore is
never followed by another underscore. -/
def sepSub (a b : Char) : Prop := a = '_' → b ≠ '_'

/-- Well-formedness of a normalized identifier: every character is a
lowercase ASCII alphanumeric or an underscore, no two consecutive
underscores, and no leading or trailing underscore. -/
def BoaForma (l : List Char) : Prop :=
  (∀ c ∈ l, charSaidaOk c = true) ∧
  l.Chain' sepSub ∧
  l.head? ≠ some '_' ∧ l.getLast? ≠ some '_'

/-- Null count as the spec's words for claim C9 describe it: a row counts
as null for a variable when its value there is null or when its timestamp
is null. -/
def null_count_declarado (df : List Linha) (j : Nat) : Nat :=
  (df.filter fun r => r.datetime.isNone || isnaEm r j).length

/-- Threshold as the spec's words for claim C4 describe it: the given
percentile of the daily-mean series the detector scans. -/
def limiarCalorDeclarado (rows : List DiaValor) (limiar_percentil : ℚ) : Option ℚ :=
  quantileLinear (soValidos ((temp_diaria rows).map Prod.snd)) (limiar_percentil / 100)

/-- Event `a` ends strictly before event `b` starts: both carry a start
day, each start day is at most its event's end day, and `a`'s interval
lies entirely before `b`'s start. Pairwise over an event list this gives
disjoint date intervals and strictly increasing start dates. -/
def EventoAntes (a b : OndaCalor) : Prop :=
  ∃ sa sb, a.inicio = some sa ∧ b.inicio = some sb ∧
    sa ≤ a.fim ∧ sb ≤ b.fim ∧ a.fim < sb

/-- The open-run state transition of the scan loop: a qualifying day keeps
(or sets) the start and bumps the length, any other day resets the state.
The qualification test is `acimaDe limiar` for the heat scan and
`abaixoDe limiar` for the cold scan. -/
def stepEstado (teste : Option ℚ → Bool) (st : Option Int × Nat) (p : DiaValor) :
    Option Int × Nat :=
  if teste p.2 then (some (st.1.getD p.1), st.2 + 1) else (none, 0)

/-- The run-length skeleton of the scan: the durations of the emitted
events, computed from the qualification pattern alone. -/
def duracoesPadrao (dias : Nat) : List Bool → Nat → List Nat
  | [], _ => []
  | b :: resto, duracao =>
    if b then duracoesPadrao dias resto (duracao + 1)
    else (if dias ≤ duracao then [duracao] else []) ++ duracoesPadrao dias resto 0

/-- The daily series of spec test C2: values 10, 10, 31, 32, 33, 10, 10 on
seven consecutive days. -/
def serieC2 : List DiaValor :=
  [(0, some 10), (1, some 10), (2, some 31), (3, some 32), (4, some 33),
   (5, some 10), (6, some 10)]

/-- A daily series with a calendar gap: three qualifying days 0, 1, 2, no
observation on day 3, and a breaking day 4. -/
def serieC3 : List DiaValor :=
  [(0, some 31), (1, some 32), (2, some 33), (4, some 10)]

/-- An hourly input whose raw 90th percentile differs from the 90th
percentile of its daily means: day 0 has readings 40 and 60 (mean 50),
days 1-3 have single readings 30, 20, 10. -/
def horasC4 : List DiaValor :=
  [(0, some 40), (0, some 60), (1, some 30), (2, some 20), (3, some 10)]

/-- Rows for claim C1's counterexample: observations on days 0 and 2 only,
so calendar day 1 of the aggregation range has zero observations. -/
def registrosC1 : List Registro :=
  [⟨some 0, some 1, some 20⟩, ⟨some 2, some 2, some 21⟩]

/-- A frame for claim C9's counterexample: a single row with a null
timestamp and a non-null value for variable 0. -/
def linhasC9 : List Linha :=
  [⟨none, [some 5]⟩]

/-- A daily series for the cold-scan witness: day 0 warm, days 1-3 below
the threshold 30, day 4 warm again. -/
def serieFrioC3 : List DiaValor :=
  [(0, some 40), (1, some 10), (2, some 9), (3, some 8), (4, some 40)]

/-- A daily series where two qualifying days (0 and 2) are separated by an
absent calendar day 1, followed by a qualifying day 3 and a breaking day
5 (day 4 also absent). -/
def serieC10 : List DiaValor :=
  [(0, some 31), (2, some 32), (3, some 33), (5, some 10)]

/-! ### Character-level lemmas -/

theorem char_le_iff_toNat {a b : Char} : a ≤ b ↔ a.toNat ≤ b.toNat := Iff.rfl

theorem char_eq_iff_toNat {a b : Char} : a = b ↔ a.toNat = b.toNat := by
  constructor
  · rintro rfl; rfl
  · intro h
    have h2 := congrArg Char.ofNat h
    rwa [Char.ofNat_toNat, Char.ofNat_toNat] at h2

theorem char_toNat_ofNat {n : Nat} (h : n.isValidChar) : (Char.ofNat n).toNat = n := by
  unfold Char.ofNat
  rw [dif_pos h]
  rfl

theorem char_toNat_d0 : ('0' : Char).toNat = 48 := rfl
theorem char_toNat_d9 : ('9' : Char).toNat = 57 := rfl
theorem char_toNat_la : ('a' : Char).toNat = 97 := rfl
theorem char_toNat_lz : ('z' : Char).toNat = 122 := rfl
theorem char_toNat_uA : ('A' : Char).toNat = 65 := rfl
theorem char_toNat_uZ : ('Z' : Char).toNat = 90 := rfl
theorem char_toNat_us : ('_' : Char).toNat = 95 := rfl
theorem char_toNat_moji : mojibakeChar.toNat = 65533 := by decide

theorem isAsciiAlnum_iff {c : Char} :
    isAsciiAlnum c = true ↔
      (48 ≤ c.toNat ∧ c.toNat ≤ 57) ∨ (97 ≤ c.toNat ∧ c.toNat ≤ 122) ∨
        (65 ≤ c.toNat ∧ c.toNat ≤ 90) := by
  simp only [isAsciiAlnum, Bool.or_eq_true, Bool.and_eq_true, decide_eq_true_eq,
    char_le_iff_toNat, char_toNat_d0, char_toNat_d9, char_toNat_la, char_toNat_lz,
    char_toNat_uA, char_toNat_uZ]
  tauto

theorem charSaidaOk_iff {c : Char} :
    charSaidaOk c = true ↔
      (48 ≤ c.toNat ∧ c.toNat ≤ 57) ∨ (97 ≤ c.toNat ∧ c.toNat ≤ 122) ∨
        c.toNat = 95 := by
  simp only [charSaidaOk, Bool.or_eq_true, Bool.and_eq_true, decide_eq_true_eq,
    char_le_iff_toNat, char_toNat_d0, char_toNat_d9, char_toNat_la, char_toNat_lz,
    char_eq_iff_toNat, char_toNat_us]
  tauto

theorem char_eq_us_iff {c : Char} : c = '_' ↔ c.toNat = 95 := by
  rw [char_eq_iff_toNat, char_toNat_us]

theorem pyLower_of_good {c : Char} (h : charSaidaOk c = true) : pyLower c = c := by
  rw [charSaidaOk_iff] at h
  rw [pyLower, if_neg]
  omega

theorem charSaidaOk_pyLower {c : Char} (h : isAsciiAlnum c = true ∨ c = '_') :
    charSaidaOk (pyLower c) = true := by
  rw [isAsciiAlnum_iff, char_eq_us_iff] at h
  by_cases hc : 65 ≤ c.toNat ∧ c.toNat ≤ 90
  · rw [pyLower, if_pos hc, charSaidaOk_iff,
      char_toNat_ofNat (Or.inl (by omega : c.toNat + 32 < 55296))]
    omega
  · rw [pyLower, if_neg hc, charSaidaOk_iff]
    omega

theorem pyLower_eq_us_iff {c : Char} (h : isAsciiAlnum c = true ∨ c = '_') :
    pyLower c = '_' ↔ c = '_' := by
  rw [isAsciiAlnum_iff, char_eq_us_iff] at h
  rw [char_eq_us_iff, char_eq_us_iff]
  by_cases hc : 65 ≤ c.toNat ∧ c.toNat ≤ 90
  · rw [pyLower, if_pos hc,
      char_toNat_ofNat (Or.inl (by omega : c.toNat + 32 < 55296))]
    omega
  · rw [pyLower, if_neg hc]

/-! ### Structure of the regex-substitution output -/

theorem head?_dropWhile_false {α : Type} (p : α → Bool) :
    ∀ (l : List α) (a : α), (l.dropWhile p).head? = some a → p a = false := by
  intro l
  induction l with
  | nil => intro a h; simp [List.dropWhile] at h
  | cons x xs ih =>
    intro a h
    rw [List.dropWhile_cons] at h
    split at h
    · exact ih a h
    · next hx =>
      simp only [List.head?_cons, Option.some.injEq] at h
      subst h
      exact Bool.not_eq_true _ ▸ (Bool.eq_false_iff.mpr hx)

theorem subNonAlnum_chars :
    ∀ l : List Char, ∀ c ∈ subNonAlnum l, isAsciiAlnum c = true ∨ c = '_' := by
  intro l
  induction l using subNonAlnum.induct with
  | case1 => intro c hc; simp [subNonAlnum] at hc
  | case2 a cs ha ih =>
    intro c hc
    rw [subNonAlnum, if_pos ha] at hc
    rcases List.mem_cons.mp hc with rfl | hc
    · exact Or.inl ha
    · exact ih c hc
  | case3 a cs ha ih =>
    intro c hc
    rw [subNonAlnum, if_neg ha] at hc
    rcases List.mem_cons.mp hc with rfl | hc
    · exact Or.inr rfl
    · exact ih c hc

theorem subNonAlnum_sep : ∀ l : List Char, (subNonAlnum l).Chain' sepSub := by
  intro l
  induction l using subNonAlnum.induct with
  | case1 => simp [subNonAlnum]
  | case2 a cs ha ih =>
    rw [subNonAlnum, if_pos ha, List.chain'_cons']
    refine ⟨?_, ih⟩
    intro y _ hau
    exfalso
    rw [hau] at ha
    exact absurd ha (by decide)
  | case3 a cs ha ih =>
    rw [subNonAlnum, if_neg ha, List.chain'_cons']
    refine ⟨?_, ih⟩
    intro y hy _
    cases hd : cs.dropWhile (fun d => !isAsciiAlnum d) with
    | nil => rw [hd] at hy; simp [subNonAlnum] at hy
    | cons b bs =>
      rw [hd] at hy
      have hb : (!isAsciiAlnum b) = false := by
        have h2 := head?_dropWhile_false (fun d => !isAsciiAlnum d) cs b
        rw [hd] at h2
        exact h2 rfl
      have hb' : isAsciiAlnum b = true := by simpa using hb
      rw [subNonAlnum, if_pos hb'] at hy
      simp only [List.head?_cons, Option.mem_def, Option.some.injEq] at hy
      subst hy
      intro hyu
      rw [hyu] at hb'
      exact absurd hb' (by decide)

theorem subNonAlnum_id :
    ∀ l : List Char, (∀ c ∈ l, charSaidaOk c = true) → l.Chain' sepSub →
      subNonAlnum l = l := by
  intro l
  induction l using subNonAlnum.induct with
  | case1 => intro _ _; rw [subNonAlnum]
  | case2 a cs ha ih =>
    intro hchars hsep
    rw [subNonAlnum, if_pos ha,
      ih (fun c hc => hchars c (List.mem_cons_of_mem _ hc)) ((List.chain'_cons'.mp hsep).2)]
  | case3 a cs ha ih =>
    intro hchars hsep
    have hau : a = '_' := by
      have hgood := (charSaidaOk_iff).mp (hchars a (List.mem_cons_self a cs))
      rw [isAsciiAlnum_iff] at ha
      rw [char_eq_us_iff]
      omega
    have hdw : cs.dropWhile (fun d => !isAsciiAlnum d) = cs := by
      cases cs with
      | nil => rfl
      | cons b bs =>
        have hb_ne : b ≠ '_' := by
          have := (List.chain'_cons'.mp hsep).1 b (by simp)
          exact this hau
        have hb_good := (charSaidaOk_iff).mp (hchars b (by simp))
        have hb95 : ¬ b.toNat = 95 := fun h95 => hb_ne (char_eq_us_iff.mpr h95)
        have hb_al : isAsciiAlnum b = true := by
          rw [isAsciiAlnum_iff]
          omega
        rw [List.dropWhile_cons, if_neg (by simp [hb_al])]
    rw [subNonAlnum, if_neg ha, hau, hdw]
    rw [hdw] at ih
    rw [ih (fun c hc => hchars c (List.mem_cons_of_mem _ hc)) ((List.chain'_cons'.mp hsep).2)]

/-! ### Structure of the strip step -/

theorem stripSublinhados_mem {l : List Char} {c : Char}
    (hc : c ∈ stripSublinhados l) : c ∈ l := by
  unfold stripSublinhados at hc
  rw [List.mem_reverse] at hc
  have h1 := (List.dropWhile_sublist (l := (l.dropWhile fun c => c = '_').reverse)
    (fun c => c = '_')).mem hc
  rw [List.mem_reverse] at h1
  exact (List.dropWhile_sublist (fun c => c = '_')).mem h1

theorem stripSublinhados_chain' {R : Char → Char → Prop} {l : List Char}
    (h : l.Chain' R) : (stripSublinhados l).Chain' R := by
  unfold stripSublinhados
  have h1 : (l.dropWhile fun c => c = '_').Chain' R := by
    obtain ⟨t, ht⟩ := List.dropWhile_suffix (l := l) (fun c => c = '_')
    rw [← ht] at h
    exact h.right_of_append
  have h2 : ((l.dropWhile fun c => c = '_').reverse).Chain' (flip R) :=
    (List.chain'_reverse).mpr h1
  have h3 : (((l.dropWhile fun c => c = '_').reverse).dropWhile
      fun c => c = '_').Chain' (flip R) := by
    obtain ⟨t, ht⟩ := List.dropWhile_suffix
      (l := (l.dropWhile fun c => c = '_').reverse) (fun c => c = '_')
    rw [← ht] at h2
    exact h2.right_of_append
  exact (List.chain'_reverse).mpr h3

theorem head?_of_isPrefix {α : Type} {l1 l2 : List α} {a : α}
    (h : l1 <+: l2) (ha : l1.head? = some a) : l2.head? = some a := by
  obtain ⟨t, rfl⟩ := h
  cases l1 with
  | nil => simp at ha
  | cons x xs => simpa using ha

theorem stripSublinhados_head? (l : List Char) :
    (stripSublinhados l).head? ≠ some '_' := by
  intro hcontra
  have hpre : stripSublinhados l <+: l.dropWhile (fun c => c = '_') := by
    unfold stripSublinhados
    have h4 := List.reverse_prefix.mpr
      (List.dropWhile_suffix (l := (l.dropWhile fun c => c = '_').reverse)
        (fun c => c = '_'))
    rwa [List.reverse_reverse] at h4
  have h2 := head?_of_isPrefix hpre hcontra
  have h3 := head?_dropWhile_false (fun c => c = '_') l '_' h2
  simp at h3

theorem stripSublinhados_getLast? (l : List Char) :
    (stripSublinhados l).getLast? ≠ some '_' := by
  intro hcontra
  unfold stripSublinhados at hcontra
  rw [List.getLast?_reverse] at hcontra
  have h3 := head?_dropWhile_false (fun c => c = '_')
    ((l.dropWhile fun c => c = '_').reverse) '_' hcontra
  simp at h3

theorem stripSublinhados_id {l : List Char}
    (hhead : l.head? ≠ some '_') (hlast : l.getLast? ≠ some '_') :
    stripSublinhados l = l := by
  unfold stripSublinhados
  have h1 : l.dropWhile (fun c => c = '_') = l := by
    cases l with
    | nil => rfl
    | cons a t =>
      rw [List.dropWhile_cons, if_neg]
      simp only [List.head?_cons, ne_eq, Option.some.injEq] at hhead
      simp [hhead]
  rw [h1]
  have h2 : l.reverse.dropWhile (fun c => c = '_') = l.reverse := by
    cases hr : l.reverse with
    | nil => rfl
    | cons a t =>
      rw [List.dropWhile_cons, if_neg]
      have : l.getLast? = some a := by
        rw [List.getLast?_eq_head?_reverse, hr]
        rfl
      intro hcontra
      rw [decide_eq_true_eq] at hcontra
      subst hcontra
      exact hlast this
  rw [h2, List.reverse_reverse]

/-! ### The lowercase step and the normalization invariant -/

theorem chain'_sepSub_map :
    ∀ s : List Char, (∀ c ∈ s, isAsciiAlnum c = true ∨ c = '_') →
      s.Chain' sepSub → (s.map pyLower).Chain' sepSub := by
  intro s
  induction s with
  | nil => intro _ _; simp
  | cons a t ih =>
    intro hg hc
    rw [List.chain'_cons'] at hc
    rw [List.map_cons, List.chain'_cons']
    refine ⟨?_, ih (fun c h => hg c (List.mem_cons_of_mem _ h)) hc.2⟩
    intro y hy ha'
    cases t with
    | nil => simp at hy
    | cons b t2 =>
      simp only [List.map_cons, List.head?_cons, Option.mem_def, Option.some.injEq] at hy
      subst hy
      have hb := hg b (by simp)
      have haa := hg a (List.mem_cons_self a _)
      have ha_us : a = '_' := (pyLower_eq_us_iff haa).mp ha'
      have hb_ne : b ≠ '_' := hc.1 b (by simp) ha_us
      exact fun hcontra => hb_ne ((pyLower_eq_us_iff hb).mp hcontra)

theorem map_pyLower_id {l : List Char} (h : ∀ c ∈ l, charSaidaOk c = true) :
    l.map pyLower = l := by
  induction l with
  | nil => rfl
  | cons a t ih =>
    rw [List.map_cons, pyLower_of_good (h a (List.mem_cons_self a t)),
      ih (fun c hc => h c (List.mem_cons_of_mem _ hc))]

theorem trocaMojibake_id {l : List Char} (h : ∀ c ∈ l, charSaidaOk c = true) :
    trocaMojibake l = l := by
  induction l with
  | nil => rfl
  | cons a t ih =>
    have ha := (charSaidaOk_iff).mp (h a (List.mem_cons_self a t))
    have hne : a ≠ mojibakeChar := by
      intro hcontra
      have := congrArg Char.toNat hcontra
      rw [char_toNat_moji] at this
      omega
    rw [trocaMojibake, List.map_cons, if_neg hne]
    have := ih (fun c hc => h c (List.mem_cons_of_mem _ hc))
    rw [trocaMojibake] at this
    rw [this]

theorem cleanChars_boaForma (l : List Char) : BoaForma (cleanChars l) := by
  unfold cleanChars BoaForma
  have hm_chars := subNonAlnum_chars (trocaMojibake (trocaMojibake l))
  have hm_sep := subNonAlnum_sep (trocaMojibake (trocaMojibake l))
  have hs_chars : ∀ c ∈ stripSublinhados (subNonAlnum (trocaMojibake (trocaMojibake l))),
      isAsciiAlnum c = true ∨ c = '_' :=
    fun c hc => hm_chars c (stripSublinhados_mem hc)
  have hs_sep := stripSublinhados_chain' hm_sep
  have hs_head := stripSublinhados_head? (subNonAlnum (trocaMojibake (trocaMojibake l)))
  have hs_last := stripSublinhados_getLast? (subNonAlnum (trocaMojibake (trocaMojibake l)))
  refine ⟨?_, chain'_sepSub_map _ hs_chars hs_sep, ?_, ?_⟩
  · intro c hc
    obtain ⟨a, ha, rfl⟩ := List.mem_map.mp hc
    exact charSaidaOk_pyLower (hs_chars a ha)
  · rw [List.head?_map]
    intro hcontra
    cases hhd : (stripSublinhados (subNonAlnum (trocaMojibake (trocaMojibake l)))).head? with
    | none => rw [hhd] at hcontra; simp at hcontra
    | some a =>
      rw [hhd] at hcontra
      simp only [Option.map_some', Option.some.injEq] at hcontra
      have ha : isAsciiAlnum a = true ∨ a = '_' :=
        hs_chars a (List.mem_of_mem_head? hhd)
      have ha_us : a = '_' := (pyLower_eq_us_iff ha).mp hcontra
      subst ha_us
      exact hs_head hhd
  · rw [List.getLast?_eq_head?_reverse, ← List.map_reverse, List.head?_map]
    intro hcontra
    cases hhd : (stripSublinhados (subNonAlnum (trocaMojibake (trocaMojibake l)))).reverse.head? with
    | none => rw [hhd] at hcontra; simp at hcontra
    | some a =>
      rw [hhd] at hcontra
      simp only [Option.map_some', Option.some.injEq] at hcontra
      have hmem : a ∈ stripSublinhados (subNonAlnum (trocaMojibake (trocaMojibake l))) := by
        rw [← List.mem_reverse]
        exact List.mem_of_mem_head? hhd
      have ha_us : a = '_' := (pyLower_eq_us_iff (hs_chars a hmem)).mp hcontra
      subst ha_us
      rw [← List.getLast?_eq_head?_reverse] at hhd
      exact hs_last hhd

theorem cleanChars_id {l : List Char} (h : BoaForma l) : cleanChars l = l := by
  obtain ⟨hchars, hsep, hhead, hlast⟩ := h
  unfold cleanChars
  rw [trocaMojibake_id hchars, trocaMojibake_id hchars,
    subNonAlnum_id l hchars hsep, stripSublinhados_id hhead hlast,
    map_pyLower_id hchars]

/-! ### Claim C5: header normalization -/

/-- C5: header normalization is idempotent — `clean_col_name` applied to its
own output returns it unchanged — and every output consists only of
lowercase ASCII alphanumeric characters and underscores, with no leading or
trailing underscore. -/
theorem clean_col_name_idempotente :
    ∀ s : String,
      clean_col_name (clean_col_name s) = clean_col_name s ∧
      (∀ c ∈ (clean_col_name s).data, charSaidaOk c = true) ∧
      (clean_col_name s).data.head? ≠ some '_' ∧
      (clean_col_name s).data.getLast? ≠ some '_' := by
  intro s
  have hb := cleanChars_boaForma s.data
  have hdata : (clean_col_name s).data = cleanChars s.data := rfl
  refine ⟨?_, hdata ▸ hb.1, hdata ▸ hb.2.2.1, hdata ▸ hb.2.2.2⟩
  show String.mk (cleanChars (clean_col_name s).data) = _
  rw [hdata, cleanChars_id hb]
  rfl

/-- Witness for C5 at a concrete header. -/
theorem clean_col_name_idempotente_witness :
    clean_col_name (clean_col_name "Hora UTC") = clean_col_name "Hora UTC" ∧
    (clean_col_name "Hora UTC").data.head? ≠ some '_' :=
  ⟨(clean_col_name_idempotente "Hora UTC").1,
   (clean_col_name_idempotente "Hora UTC").2.2.1⟩

/-! ### Claim C2: the spec's concrete heat-wave test -/

/-- C2: scanning the daily mean series 10, 10, 31, 32, 33, 10, 10 (days
0 to 6) with heat threshold 30 and minimum run length 3 emits exactly one
event, spanning the three days with values 31, 32, 33 (days 2 to 4), with
`temp_max` 33 and `temp_media` 32. -/
theorem varredura_calor_teste_espec :
    varreduraCalor serieC2 (some 30) 3 serieC2 none 0 =
      [{ inicio := some 2, fim := 4, duracao := 3,
         temp_max := some 33, temp_media := some 32 }] := by
  norm_num [serieC2, varreduraCalor, acimaDe, fatiaDias, soValidos, serieMax, serieMean,
    List.filterMap_cons, max_def]

/-! ### Claim C9: the missingness report -/

/-- C9 counterexample: on a frame whose single row has a null timestamp but
a non-null value for variable 0, `missing_report` counts zero nulls for
that variable, while the claim's rule (null timestamp counts as null for
every variable) demands one. -/
theorem null_count_ignora_timestamp_nulo :
    null_count linhasC9 0 = 0 ∧ null_count_declarado linhasC9 0 = 1 ∧
    null_count linhasC9 0 ≠ null_count_declarado linhasC9 0 := by
  refine ⟨rfl, rfl, ?_⟩
  decide

/-- C9 amended: for every frame and variable, `missing_count` equals the
number of rows whose value for that variable is null — a row with a null
timestamp is not counted as null for the other variables — and
`missing_pct` equals `missing_count / total_rows * 100` with `total_rows`
the full row count. -/
theorem null_count_e_pct :
    ∀ (df : List Linha) (j : Nat),
      null_count df j = (df.filter fun r => isnaEm r j).length ∧
      null_pct df j = (null_count df j : ℚ) / (df.length : ℚ) * 100 := by
  intro df j
  refine ⟨?_, rfl⟩
  induction df with
  | nil => rfl
  | cons r t ih =>
    simp only [null_count, List.map_cons, List.sum_cons, List.filter_cons] at ih ⊢
    cases h : isnaEm r j <;> simp [h, ih] <;> omega

/-! ### Claim C8: ingestion with missing required columns -/

/-- C8 counterexample: on a header missing both required fields,
`load_data` does not fail: it returns the frame with its normalized
columns and no `datetime` column. -/
theorem load_data_sem_erro :
    "data" ∉ (["foo", "bar"].map clean_col_name) ∧
    load_data ["foo", "bar"] = Except.ok ⟨["foo", "bar"]⟩ := by
  constructor
  · simp [clean_col_name, cleanChars, trocaMojibake, subNonAlnum,
      stripSublinhados, pyLower, mojibakeChar, isAsciiAlnum]
  · simp [load_data, clean_col_name, cleanChars, trocaMojibake, subNonAlnum,
      stripSublinhados, pyLower, mojibakeChar, isAsciiAlnum]

/-- C8 amended: when the normalized header lacks the date field or the hour
field, `load_data` does not abort with an error — it returns the frame
unchanged (normalized columns, no constructed `datetime` time axis). -/
theorem load_data_ok_sem_datetime :
    ∀ cols : List String,
      ("data" ∉ cols.map clean_col_name ∨ "hora_utc" ∉ cols.map clean_col_name) →
      load_data cols = Except.ok ⟨cols.map clean_col_name⟩ := by
  intro cols h
  have hb : (((cols.map clean_col_name).contains "data") &&
      ((cols.map clean_col_name).contains "hora_utc")) = false := by
    cases hc : ((cols.map clean_col_name).contains "data" &&
        (cols.map clean_col_name).contains "hora_utc") with
    | false => rfl
    | true =>
      rw [Bool.and_eq_true] at hc
      rcases h with h | h
      · exact absurd (List.elem_iff.mp hc.1) h
      · exact absurd (List.elem_iff.mp hc.2) h
  simp only [load_data]
  rw [hb]
  simp

/-- Witness for C8 at a concrete one-column header. -/
theorem load_data_ok_sem_datetime_witness :
    load_data ["Temp"] = Except.ok ⟨["Temp"].map clean_col_name⟩ := by
  refine load_data_ok_sem_datetime ["Temp"] (Or.inl ?_)
  simp [clean_col_name, cleanChars, trocaMojibake, subNonAlnum,
    stripSublinhados, pyLower, mojibakeChar, isAsciiAlnum]

/-! ### Claim C4: the detector's threshold -/

/-- C4 counterexample: for the hourly input `horasC4` the detector's
threshold (the 90th percentile of the raw hourly series) is 52, while the
claim's threshold (the 90th percentile of the daily-mean series it scans)
is 44. -/
theorem limiar_nao_e_da_serie_diaria :
    limiarCalor horasC4 90 = some 52 ∧
    limiarCalorDeclarado horasC4 90 = some 44 ∧
    limiarCalor horasC4 90 ≠ limiarCalorDeclarado horasC4 90 := by
  have h1 : limiarCalor horasC4 90 = some 52 := by
    norm_num [horasC4, limiarCalor, quantileLinear, soValidos, List.insertionSort,
      List.orderedInsert, List.filterMap_cons, List.getD, min_def]
    simp
    norm_num
  have h2 : limiarCalorDeclarado horasC4 90 = some 44 := by
    norm_num [horasC4, limiarCalorDeclarado, quantileLinear, soValidos, temp_diaria,
      diasDistintos, serieMean, List.insertionSort, List.orderedInsert, List.dedup,
      List.filterMap_cons, List.getD, min_def]
    simp
    norm_num
  refine ⟨h1, h2, ?_⟩
  rw [h1, h2]
  intro hcontra
  rw [Option.some.injEq] at hcontra
  norm_num at hcontra

/-- C4 amended: the detector's threshold is the given percentile of the
entire raw hourly series it was given (nulls excluded), it depends only on
the multiset of non-null raw values, and the scan runs against that one
fixed threshold. -/
theorem limiar_fixo_da_serie_bruta :
    ∀ (rows : List DiaValor) (p : ℚ) (d : Nat),
      detectar_ondas_calor rows p d =
        varreduraCalor (temp_diaria rows) (limiarCalor rows p) d
          (temp_diaria rows) none 0 ∧
      limiarCalor rows p = quantileLinear (soValidos (rows.map Prod.snd)) (p / 100) ∧
      (∀ rows2 : List DiaValor,
        (soValidos (rows2.map Prod.snd)).Perm (soValidos (rows.map Prod.snd)) →
        limiarCalor rows2 p = limiarCalor rows p) := by
  intro rows p d
  refine ⟨rfl, rfl, ?_⟩
  intro rows2 hperm
  have hsort :
      List.insertionSort (· ≤ ·) (soValidos (rows2.map Prod.snd)) =
      List.insertionSort (· ≤ ·) (soValidos (rows.map Prod.snd)) := by
    have hperm2 :
        (List.insertionSort (· ≤ ·) (soValidos (rows2.map Prod.snd))).Perm
          (List.insertionSort (· ≤ ·) (soValidos (rows.map Prod.snd))) :=
      ((List.perm_insertionSort _ _).trans hperm).trans
        (List.perm_insertionSort _ _).symm
    exact List.eq_of_perm_of_sorted hperm2
      (List.sorted_insertionSort _ _) (List.sorted_insertionSort _ _)
  unfold limiarCalor quantileLinear
  rw [hsort]

/-- Witness for C4 at a concrete permuted input. -/
theorem limiar_fixo_da_serie_bruta_witness :
    limiarCalor [(0, some 60), (0, some 40), (1, some 30), (2, some 20), (3, some 10)] 90 =
      limiarCalor horasC4 90 := by
  refine (limiar_fixo_da_serie_bruta horasC4 90 3).2.2 _ ?_
  simp only [horasC4, soValidos, List.map_cons, List.map_nil,
    List.filterMap_cons, List.filterMap_nil, id]
  exact List.Perm.swap _ _ _

/-! ### Claim C1: daily aggregates -/

theorem comData_mem {rows : List Registro} {p : Int × Registro}
    (hp : p ∈ comData rows) : p.2 ∈ rows ∧ p.2.datetime = some p.1 := by
  unfold comData at hp
  obtain ⟨r, hr, heq⟩ := List.mem_filterMap.mp hp
  cases hd : r.datetime with
  | none => rw [hd] at heq; simp at heq
  | some d =>
    rw [hd] at heq
    simp only [Option.map_some', Option.some.injEq] at heq
    subst heq
    exact ⟨hr, hd⟩

theorem comData_ne_nil {rows : List Registro}
    (h : ∃ r ∈ rows, r.datetime.isSome) : comData rows ≠ [] := by
  obtain ⟨r, hr, hsome⟩ := h
  cases hd : r.datetime with
  | none => rw [hd] at hsome; simp at hsome
  | some d =>
    intro hcontra
    have : (d, r) ∈ comData rows := by
      unfold comData
      exact List.mem_filterMap.mpr ⟨r, hr, by rw [hd]; rfl⟩
    rw [hcontra] at this
    simp at this

theorem soValidos_eq_nil {l : List (Option ℚ)} (h : ∀ x ∈ l, x = none) :
    soValidos l = [] := by
  induction l with
  | nil => rfl
  | cons a t ih =>
    have ha := h a (List.mem_cons_self a t)
    subst ha
    simp only [soValidos, List.filterMap_cons, id]
    exact ih fun x hx => h x (List.mem_cons_of_mem _ hx)

/-- C1 counterexample: on rows dated to days 0 and 2 only, the aggregate
row for day 1 — a day with zero observations — carries precipitation sum
0, not null (pandas `.resample('D').sum()` fills empty days with 0.0),
while the temperature aggregates are null. -/
theorem daily_aggregates_dia_vazio_soma_zero :
    (∀ r ∈ registrosC1, r.datetime ≠ some 1) ∧
    (daily_aggregates registrosC1)[1]? =
      some { dia := 1, precip_total_sum_mm := 0, temp_mean_c := none,
             temp_max_c := none, temp_min_c := none } := by
  constructor
  · decide
  · norm_num [registrosC1, daily_aggregates, comData, diaMinimo, diaMaximo,
      soValidos, serieSum, serieMean, serieMax, serieMin, List.filterMap_cons,
      List.range, List.range.loop]
    simp

/-- C1 amended: for every input with at least one non-null timestamp, the
daily aggregate has exactly one row per calendar day between the minimum
and maximum timestamp dates inclusive, and on a day with zero observations
(no records, or all values null) the temperature mean/max/min aggregates
are null while the precipitation sum is 0 — pandas' empty-sum default —
not null. -/
theorem daily_aggregates_um_por_dia :
    ∀ rows : List Registro, (∃ r ∈ rows, r.datetime.isSome) →
      ((daily_aggregates rows).map (fun a => a.dia) =
        (List.range ((diaMaximo ((comData rows).map Prod.fst) -
            diaMinimo ((comData rows).map Prod.fst)) + 1).toNat).map
          (fun i => diaMinimo ((comData rows).map Prod.fst) + (i : Int))) ∧
      ∀ ag ∈ daily_aggregates rows,
        (∀ r ∈ rows, r.datetime = some ag.dia → r.precip = none ∧ r.temp = none) →
        ag.precip_total_sum_mm = 0 ∧ ag.temp_mean_c = none ∧
        ag.temp_max_c = none ∧ ag.temp_min_c = none := by
  intro rows hne
  have hd := comData_ne_nil hne
  constructor
  · unfold daily_aggregates
    rw [if_neg hd, List.map_map]
    rfl
  · intro ag hag happ
    unfold daily_aggregates at hag
    rw [if_neg hd] at hag
    obtain ⟨i, _, heq⟩ := List.mem_map.mp hag
    have hdia : ag.dia = diaMinimo ((comData rows).map Prod.fst) + (i : Int) := by
      rw [← heq]
    set d := diaMinimo ((comData rows).map Prod.fst) + (i : Int) with hdset
    have hvazio : ∀ x ∈ ((comData rows).filter fun p => p.1 == d).map
        (fun p => p.2.precip), x = none := by
      intro x hx
      obtain ⟨p, hp, hxeq⟩ := List.mem_map.mp hx
      have hpf := List.mem_filter.mp hp
      have hmem := comData_mem hpf.1
      have hp1 : p.1 = d := by
        have := hpf.2
        rwa [beq_iff_eq] at this
      have := happ p.2 hmem.1 (by rw [hmem.2, hp1, hdia])
      rw [← hxeq]
      exact this.1
    have hvazioT : ∀ x ∈ ((comData rows).filter fun p => p.1 == d).map
        (fun p => p.2.temp), x = none := by
      intro x hx
      obtain ⟨p, hp, hxeq⟩ := List.mem_map.mp hx
      have hpf := List.mem_filter.mp hp
      have hmem := comData_mem hpf.1
      have hp1 : p.1 = d := by
        have := hpf.2
        rwa [beq_iff_eq] at this
      have := happ p.2 hmem.1 (by rw [hmem.2, hp1, hdia])
      rw [← hxeq]
      exact this.2
    rw [← heq]
    simp only [soValidos_eq_nil hvazio, soValidos_eq_nil hvazioT]
    exact ⟨rfl, rfl, rfl, rfl⟩

/-- Witness for C1 at the concrete rows of `registrosC1`: days 0, 1, 2 each
get exactly one aggregate row. -/
theorem daily_aggregates_um_por_dia_witness :
    (daily_aggregates registrosC1).map (fun a => a.dia) = [0, 1, 2] := by
  have h := (daily_aggregates_um_por_dia registrosC1
    ⟨⟨some 0, some 1, some 20⟩, by simp [registrosC1], rfl⟩).1
  rw [h]
  norm_num [registrosC1, comData, diaMinimo, diaMaximo, List.range, List.range.loop,
    List.filterMap_cons, List.filterMap_nil, Option.map_some']

/-! ### Structure of the scan loop -/

theorem varreduraCalor_nil (td : List DiaValor) (L : Option ℚ) (d : Nat)
    (st : Option Int) (k : Nat) : varreduraCalor td L d [] st k = [] := rfl

theorem varreduraCalor_cons_pos {td : List DiaValor} {L : Option ℚ} {d : Nat}
    {data : Int} {v : Option ℚ} {resto : List DiaValor} {st : Option Int} {k : Nat}
    (h : acimaDe L v = true) :
    varreduraCalor td L d ((data, v) :: resto) st k =
      varreduraCalor td L d resto (some (st.getD data)) (k + 1) := by
  rw [varreduraCalor, if_pos h]

theorem varreduraCalor_cons_neg {td : List DiaValor} {L : Option ℚ} {d : Nat}
    {data : Int} {v : Option ℚ} {resto : List DiaValor} {st : Option Int} {k : Nat}
    (h : acimaDe L v = false) :
    varreduraCalor td L d ((data, v) :: resto) st k =
      (if d ≤ k then
        [{ inicio := st, fim := data - 1, duracao := k,
           temp_max := serieMax (soValidos ((fatiaDias td st (data - 1)).map Prod.snd)),
           temp_media := serieMean (soValidos ((fatiaDias td st (data - 1)).map Prod.snd)) }]
      else []) ++ varreduraCalor td L d resto none 0 := by
  rw [varreduraCalor, if_neg (by simp [h])]

theorem varreduraCalor_append (td : List DiaValor) (L : Option ℚ) (d : Nat) :
    ∀ (l resto : List DiaValor) (st : Option Int) (k : Nat),
      varreduraCalor td L d (l ++ resto) st k =
        varreduraCalor td L d l st k ++
          varreduraCalor td L d resto
            (List.foldl (stepEstado (acimaDe L)) (st, k) l).1
            (List.foldl (stepEstado (acimaDe L)) (st, k) l).2 := by
  intro l
  induction l with
  | nil => intro resto st k; simp [varreduraCalor_nil]
  | cons p l2 ih =>
    intro resto st k
    obtain ⟨data, v⟩ := p
    cases h : acimaDe L v with
    | true =>
      rw [List.cons_append, varreduraCalor_cons_pos h, varreduraCalor_cons_pos h, ih,
        List.foldl_cons]
      simp [stepEstado, h]
    | false =>
      rw [List.cons_append, varreduraCalor_cons_neg h, varreduraCalor_cons_neg h, ih,
        List.foldl_cons, List.append_assoc]
      simp [stepEstado, h]

theorem varreduraCalor_qualificada (td : List DiaValor) (L : Option ℚ) (d : Nat) :
    ∀ (l : List DiaValor) (st : Option Int) (k : Nat),
      (∀ p ∈ l, acimaDe L p.2 = true) →
      varreduraCalor td L d l st k = [] := by
  intro l
  induction l with
  | nil => intro st k _; rfl
  | cons p l2 ih =>
    intro st k h
    obtain ⟨data, v⟩ := p
    rw [varreduraCalor_cons_pos (h (data, v) (List.mem_cons_self _ _))]
    exact ih _ _ fun q hq => h q (List.mem_cons_of_mem _ hq)

theorem foldl_stepEstado_qualificado (teste : Option ℚ → Bool) :
    ∀ (l : List DiaValor) (s : Int) (k : Nat),
      (∀ p ∈ l, teste p.2 = true) →
      List.foldl (stepEstado teste) (some s, k) l = (some s, k + l.length) := by
  intro l
  induction l with
  | nil => intro s k _; rfl
  | cons p l2 ih =>
    intro s k h
    rw [List.foldl_cons]
    have hp := h p (List.mem_cons_self _ _)
    simp only [stepEstado, hp, if_pos, Option.getD_some]
    rw [ih s (k + 1) fun q hq => h q (List.mem_cons_of_mem _ hq)]
    simp only [List.length_cons]
    rw [Nat.add_assoc, Nat.add_comm 1 l2.length]

theorem foldl_stepEstado_reset (teste : Option ℚ → Bool) :
    ∀ (ant : List DiaValor) (st : Option Int) (k : Nat),
      (ant = [] ∨ ∃ q ant0, ant = ant0 ++ [q] ∧ teste q.2 = false) →
      List.foldl (stepEstado teste) (st, k) ant = (st, k) ∨
      List.foldl (stepEstado teste) (st, k) ant = (none, 0) := by
  intro ant st k h
  rcases h with rfl | ⟨q, ant0, rfl, hq⟩
  · exact Or.inl rfl
  · right
    rw [List.foldl_append, List.foldl_cons, List.foldl_nil]
    simp [stepEstado, hq]

theorem fatiaDias_do_trecho {ant rtail rest : List DiaValor} {s0 bw : DiaValor}
    (hsort : List.Pairwise (fun p q : DiaValor => p.1 < q.1)
      (ant ++ (s0 :: rtail) ++ bw :: rest)) :
    fatiaDias (ant ++ (s0 :: rtail) ++ bw :: rest) (some s0.1) (bw.1 - 1) =
      s0 :: rtail := by
  rw [List.pairwise_append] at hsort
  obtain ⟨hleft, hbw, hcross⟩ := hsort
  rw [List.pairwise_append] at hleft
  obtain ⟨_, hmid, hcross2⟩ := hleft
  rw [List.pairwise_cons] at hmid hbw
  unfold fatiaDias
  rw [List.filter_append, List.filter_append]
  have h1 : (ant.filter fun p =>
      (match (some s0.1 : Option Int) with
       | none => true
       | some s => decide (s ≤ p.1)) && decide (p.1 ≤ bw.1 - 1)) = [] := by
    rw [List.filter_eq_nil_iff]
    intro p hp
    have hlt : p.1 < s0.1 :=
      hcross2 p hp s0 (List.mem_cons_self _ _)
    simp only [Bool.and_eq_true, decide_eq_true_eq]
    intro hcon
    omega
  have h2 : ((s0 :: rtail).filter fun p =>
      (match (some s0.1 : Option Int) with
       | none => true
       | some s => decide (s ≤ p.1)) && decide (p.1 ≤ bw.1 - 1)) = s0 :: rtail := by
    rw [List.filter_eq_self]
    intro q hq
    have hle : s0.1 ≤ q.1 := by
      rcases List.mem_cons.mp hq with rfl | hq2
      · exact le_refl _
      · exact le_of_lt (hmid.1 q hq2)
    have hlt : q.1 < bw.1 :=
      hcross q (List.mem_append_right _ hq) bw (List.mem_cons_self _ _)
    simp only [Bool.and_eq_true, decide_eq_true_eq]
    exact ⟨hle, by omega⟩
  have h3 : ((bw :: rest).filter fun p =>
      (match (some s0.1 : Option Int) with
       | none => true
       | some s => decide (s ≤ p.1)) && decide (p.1 ≤ bw.1 - 1)) = [] := by
    rw [List.filter_eq_nil_iff]
    intro p hp
    have hge : bw.1 ≤ p.1 := by
      rcases List.mem_cons.mp hp with rfl | hp2
      · exact le_refl _
      · exact le_of_lt (hbw.1 p hp2)
    simp only [Bool.and_eq_true, decide_eq_true_eq]
    intro hcon
    omega
  rw [h1, h2, h3, List.nil_append, List.append_nil]

theorem varredura_calor_do_trecho
    {td : List DiaValor} {L : Option ℚ} {d : Nat}
    {ant rtail rest : List DiaValor} {s0 : DiaValor} {bd : Int} {w : Option ℚ}
    (htd : td = ant ++ (s0 :: rtail) ++ (bd, w) :: rest)
    (hsort : List.Pairwise (fun p q : DiaValor => p.1 < q.1) td)
    (hant : ant = [] ∨ ∃ q ant0, ant = ant0 ++ [q] ∧ acimaDe L q.2 = false)
    (hrun : ∀ p ∈ s0 :: rtail, acimaDe L p.2 = true)
    (hw : acimaDe L w = false)
    (hd : d ≤ (s0 :: rtail).length) :
    varreduraCalor td L d td none 0 =
      varreduraCalor td L d ant none 0 ++
        { inicio := some s0.1, fim := bd - 1, duracao := (s0 :: rtail).length,
          temp_max := serieMax (soValidos ((s0 :: rtail).map Prod.snd)),
          temp_media := serieMean (soValidos ((s0 :: rtail).map Prod.snd)) } ::
        varreduraCalor td L d rest none 0 := by
  obtain ⟨sd, sv⟩ := s0
  have hsort2 : List.Pairwise (fun p q : DiaValor => p.1 < q.1)
      (ant ++ ((sd, sv) :: rtail) ++ (bd, w) :: rest) := htd ▸ hsort
  have hfold : List.foldl (stepEstado (acimaDe L)) ((none : Option Int), 0) ant =
      (none, 0) := by
    rcases foldl_stepEstado_reset (acimaDe L) ant none 0 hant with h | h <;> exact h
  have hshape : td = ant ++ (((sd, sv) :: rtail) ++ (bd, w) :: rest) := by
    rw [htd, List.append_assoc]
  have hfatia : fatiaDias td (some sd) (bd - 1) = (sd, sv) :: rtail := by
    rw [htd]
    simpa using fatiaDias_do_trecho hsort2
  have h0 := congrArg (fun x => varreduraCalor td L d x none 0) hshape
  simp only at h0
  rw [h0,
    varreduraCalor_append td L d ant (((sd, sv) :: rtail) ++ (bd, w) :: rest) none 0,
    hfold]
  congr 1
  rw [List.cons_append,
    varreduraCalor_cons_pos (hrun (sd, sv) (List.mem_cons_self _ _)),
    Option.getD_none,
    varreduraCalor_append td L d rtail ((bd, w) :: rest) (some sd) 1,
    varreduraCalor_qualificada td L d rtail (some sd) 1
      (fun q hq => hrun q (List.mem_cons_of_mem _ hq)),
    foldl_stepEstado_qualificado (acimaDe L) rtail sd 1
      (fun q hq => hrun q (List.mem_cons_of_mem _ hq)),
    List.nil_append,
    varreduraCalor_cons_neg hw,
    if_pos (by simpa using Nat.le_trans hd (by simp [Nat.add_comm])),
    hfatia]
  simp [Nat.add_comm]

theorem varreduraFrio_nil (td : List DiaValor) (L : Option ℚ) (d : Nat)
    (st : Option Int) (k : Nat) : varreduraFrio td L d [] st k = [] := rfl

theorem varreduraFrio_cons_pos {td : List DiaValor} {L : Option ℚ} {d : Nat}
    {data : Int} {v : Option ℚ} {resto : List DiaValor} {st : Option Int} {k : Nat}
    (h : abaixoDe L v = true) :
    varreduraFrio td L d ((data, v) :: resto) st k =
      varreduraFrio td L d resto (some (st.getD data)) (k + 1) := by
  rw [varreduraFrio, if_pos h]

theorem varreduraFrio_cons_neg {td : List DiaValor} {L : Option ℚ} {d : Nat}
    {data : Int} {v : Option ℚ} {resto : List DiaValor} {st : Option Int} {k : Nat}
    (h : abaixoDe L v = false) :
    varreduraFrio td L d ((data, v) :: resto) st k =
      (if d ≤ k then
        [{ inicio := st, fim := data - 1, duracao := k,
           temp_min := serieMin (soValidos ((fatiaDias td st (data - 1)).map Prod.snd)),
           temp_media := serieMean (soValidos ((fatiaDias td st (data - 1)).map Prod.snd)) }]
      else []) ++ varreduraFrio td L d resto none 0 := by
  rw [varreduraFrio, if_neg (by simp [h])]

theorem varreduraFrio_append (td : List DiaValor) (L : Option ℚ) (d : Nat) :
    ∀ (l resto : List DiaValor) (st : Option Int) (k : Nat),
      varreduraFrio td L d (l ++ resto) st k =
        varreduraFrio td L d l st k ++
          varreduraFrio td L d resto
            (List.foldl (stepEstado (abaixoDe L)) (st, k) l).1
            (List.foldl (stepEstado (abaixoDe L)) (st, k) l).2 := by
  intro l
  induction l with
  | nil => intro resto st k; simp [varreduraFrio_nil]
  | cons p l2 ih =>
    intro resto st k
    obtain ⟨data, v⟩ := p
    cases h : abaixoDe L v with
    | true =>
      rw [List.cons_append, varreduraFrio_cons_pos h, varreduraFrio_cons_pos h, ih,
        List.foldl_cons]
      simp [stepEstado, h]
    | false =>
      rw [List.cons_append, varreduraFrio_cons_neg h, varreduraFrio_cons_neg h, ih,
        List.foldl_cons, List.append_assoc]
      simp [stepEstado, h]

theorem varreduraFrio_qualificada (td : List DiaValor) (L : Option ℚ) (d : Nat) :
    ∀ (l : List DiaValor) (st : Option Int) (k : Nat),
      (∀ p ∈ l, abaixoDe L p.2 = true) →
      varreduraFrio td L d l st k = [] := by
  intro l
  induction l with
  | nil => intro st k _; rfl
  | cons p l2 ih =>
    intro st k h
    obtain ⟨data, v⟩ := p
    rw [varreduraFrio_cons_pos (h (data, v) (List.mem_cons_self _ _))]
    exact ih _ _ fun q hq => h q (List.mem_cons_of_mem _ hq)

theorem varredura_frio_do_trecho
    {td : List DiaValor} {L : Option ℚ} {d : Nat}
    {ant rtail rest : List DiaValor} {s0 : DiaValor} {bd : Int} {w : Option ℚ}
    (htd : td = ant ++ (s0 :: rtail) ++ (bd, w) :: rest)
    (hsort : List.Pairwise (fun p q : DiaValor => p.1 < q.1) td)
    (hant : ant = [] ∨ ∃ q ant0, ant = ant0 ++ [q] ∧ abaixoDe L q.2 = false)
    (hrun : ∀ p ∈ s0 :: rtail, abaixoDe L p.2 = true)
    (hw : abaixoDe L w = false)
    (hd : d ≤ (s0 :: rtail).length) :
    varreduraFrio td L d td none 0 =
      varreduraFrio td L d ant none 0 ++
        { inicio := some s0.1, fim := bd - 1, duracao := (s0 :: rtail).length,
          temp_min := serieMin (soValidos ((s0 :: rtail).map Prod.snd)),
          temp_media := serieMean (soValidos ((s0 :: rtail).map Prod.snd)) } ::
        varreduraFrio td L d rest none 0 := by
  obtain ⟨sd, sv⟩ := s0
  have hsort2 : List.Pairwise (fun p q : DiaValor => p.1 < q.1)
      (ant ++ ((sd, sv) :: rtail) ++ (bd, w) :: rest) := htd ▸ hsort
  have hfold : List.foldl (stepEstado (abaixoDe L)) ((none : Option Int), 0) ant =
      (none, 0) := by
    rcases foldl_stepEstado_reset (abaixoDe L) ant none 0 hant with h | h <;> exact h
  have hshape : td = ant ++ (((sd, sv) :: rtail) ++ (bd, w) :: rest) := by
    rw [htd, List.append_assoc]
  have hfatia : fatiaDias td (some sd) (bd - 1) = (sd, sv) :: rtail := by
    rw [htd]
    simpa using fatiaDias_do_trecho hsort2
  have h0 := congrArg (fun x => varreduraFrio td L d x none 0) hshape
  simp only at h0
  rw [h0,
    varreduraFrio_append td L d ant (((sd, sv) :: rtail) ++ (bd, w) :: rest) none 0,
    hfold]
  congr 1
  rw [List.cons_append,
    varreduraFrio_cons_pos (hrun (sd, sv) (List.mem_cons_self _ _)),
    Option.getD_none,
    varreduraFrio_append td L d rtail ((bd, w) :: rest) (some sd) 1,
    varreduraFrio_qualificada td L d rtail (some sd) 1
      (fun q hq => hrun q (List.mem_cons_of_mem _ hq)),
    foldl_stepEstado_qualificado (abaixoDe L) rtail sd 1
      (fun q hq => hrun q (List.mem_cons_of_mem _ hq)),
    List.nil_append,
    varreduraFrio_cons_neg hw,
    if_pos (by simpa using Nat.le_trans hd (by simp [Nat.add_comm])),
    hfatia]
  simp [Nat.add_comm]

/-! ### Claim C3: the emitted event of a broken run -/

/-- C3 amended: whenever a day breaks an open run of at least the minimum
length — the scanned series decomposing as a possibly empty, non-qualifying
terminated part, the qualifying run, the breaking day and the remainder —
the emitted event has `inicio` the run's first day, `fim` the calendar day
before the breaking day (which is the run's last qualifying day exactly
when that day immediately precedes the breaking day), `duracao` the run
length, extreme value the max (heat) resp. min (cold) of the run's values,
and `temp_media` the arithmetic mean of the run's values; this holds for
the heat and the cold scan. -/
theorem evento_emitido_fecha_trecho :
    (∀ (td : List DiaValor) (L : Option ℚ) (d : Nat)
        (ant rtail rest : List DiaValor) (s0 : DiaValor) (bd : Int) (w : Option ℚ),
      td = ant ++ (s0 :: rtail) ++ (bd, w) :: rest →
      List.Pairwise (fun p q : DiaValor => p.1 < q.1) td →
      (ant = [] ∨ ∃ q ant0, ant = ant0 ++ [q] ∧ acimaDe L q.2 = false) →
      (∀ p ∈ s0 :: rtail, acimaDe L p.2 = true) →
      acimaDe L w = false →
      d ≤ (s0 :: rtail).length →
      varreduraCalor td L d td none 0 =
        varreduraCalor td L d ant none 0 ++
          { inicio := some s0.1, fim := bd - 1, duracao := (s0 :: rtail).length,
            temp_max := serieMax (soValidos ((s0 :: rtail).map Prod.snd)),
            temp_media := serieMean (soValidos ((s0 :: rtail).map Prod.snd)) } ::
          varreduraCalor td L d rest none 0) ∧
    (∀ (td : List DiaValor) (L : Option ℚ) (d : Nat)
        (ant rtail rest : List DiaValor) (s0 : DiaValor) (bd : Int) (w : Option ℚ),
      td = ant ++ (s0 :: rtail) ++ (bd, w) :: rest →
      List.Pairwise (fun p q : DiaValor => p.1 < q.1) td →
      (ant = [] ∨ ∃ q ant0, ant = ant0 ++ [q] ∧ abaixoDe L q.2 = false) →
      (∀ p ∈ s0 :: rtail, abaixoDe L p.2 = true) →
      abaixoDe L w = false →
      d ≤ (s0 :: rtail).length →
      varreduraFrio td L d td none 0 =
        varreduraFrio td L d ant none 0 ++
          { inicio := some s0.1, fim := bd - 1, duracao := (s0 :: rtail).length,
            temp_min := serieMin (soValidos ((s0 :: rtail).map Prod.snd)),
            temp_media := serieMean (soValidos ((s0 :: rtail).map Prod.snd)) } ::
          varreduraFrio td L d rest none 0) :=
  ⟨fun _ _ _ _ _ _ _ _ _ htd hsort hant hrun hw hd =>
    varredura_calor_do_trecho htd hsort hant hrun hw hd,
   fun _ _ _ _ _ _ _ _ _ htd hsort hant hrun hw hd =>
    varredura_frio_do_trecho htd hsort hant hrun hw hd⟩

/-- C3 counterexample: on the gapped series `serieC3` (qualifying days 0,
1, 2; day 3 absent; breaking day 4) the emitted event's `fim` is 3 — the
day before the breaking day — although no qualifying day of the series is
day 3: the last qualifying day is 2. -/
theorem fim_alem_do_ultimo_qualificado :
    varreduraCalor serieC3 (some 30) 3 serieC3 none 0 =
      [{ inicio := some 0, fim := 3, duracao := 3,
         temp_max := some 33, temp_media := some 32 }] ∧
    (∀ p ∈ serieC3, acimaDe (some 30) p.2 = true → p.1 ≠ 3) := by
  constructor
  · norm_num [serieC3, varreduraCalor, acimaDe, fatiaDias, soValidos, serieMax,
      serieMean, List.filterMap_cons, max_def]
  · intro p hp
    simp only [serieC3, List.mem_cons, List.not_mem_nil, or_false] at hp
    rcases hp with rfl | rfl | rfl | rfl <;> simp [acimaDe] <;> norm_num

/-- Witness for C3 on concrete heat and cold runs. -/
theorem evento_emitido_fecha_trecho_witness :
    (varreduraCalor serieC2 (some 30) 3 serieC2 none 0 =
      varreduraCalor serieC2 (some 30) 3 [(0, some 10), (1, some 10)] none 0 ++
        { inicio := some 2, fim := 4, duracao := 3,
          temp_max := serieMax (soValidos
            ([((2 : Int), (some 31 : Option ℚ)), (3, some 32), (4, some 33)].map Prod.snd)),
          temp_media := serieMean (soValidos
            ([((2 : Int), (some 31 : Option ℚ)), (3, some 32), (4, some 33)].map Prod.snd)) } ::
        varreduraCalor serieC2 (some 30) 3 [(6, some 10)] none 0) ∧
    (varreduraFrio serieFrioC3 (some 30) 3 serieFrioC3 none 0 =
      varreduraFrio serieFrioC3 (some 30) 3 [(0, some 40)] none 0 ++
        { inicio := some 1, fim := 3, duracao := 3,
          temp_min := serieMin (soValidos
            ([((1 : Int), (some 10 : Option ℚ)), (2, some 9), (3, some 8)].map Prod.snd)),
          temp_media := serieMean (soValidos
            ([((1 : Int), (some 10 : Option ℚ)), (2, some 9), (3, some 8)].map Prod.snd)) } ::
        varreduraFrio serieFrioC3 (some 30) 3 [] none 0) := by
  constructor
  · refine evento_emitido_fecha_trecho.1 serieC2 (some 30) 3
      [(0, some 10), (1, some 10)] [(3, some 32), (4, some 33)] [(6, some 10)]
      (2, some 31) 5 (some 10) rfl ?_ ?_ ?_ ?_ ?_
    · norm_num [serieC2, List.pairwise_cons]
    · exact Or.inr ⟨(1, some 10), [(0, some 10)], rfl, by simp [acimaDe]; norm_num⟩
    · intro p hp
      simp only [List.mem_cons, List.not_mem_nil, or_false] at hp
      rcases hp with rfl | rfl | rfl <;> simp [acimaDe] <;> norm_num
    · simp [acimaDe]
      norm_num
    · simp
  · refine evento_emitido_fecha_trecho.2 serieFrioC3 (some 30) 3
      [(0, some 40)] [(2, some 9), (3, some 8)] []
      (1, some 10) 4 (some 40) rfl ?_ ?_ ?_ ?_ ?_
    · norm_num [serieFrioC3, List.pairwise_cons]
    · exact Or.inr ⟨(0, some 40), [], rfl, by simp [abaixoDe]; norm_num⟩
    · intro p hp
      simp only [List.mem_cons, List.not_mem_nil, or_false] at hp
      rcases hp with rfl | rfl | rfl <;> simp [abaixoDe] <;> norm_num
    · simp [abaixoDe]
      norm_num
    · simp

/-! ### Claim C7: no flush at end of series -/

/-- C7: a qualifying run still in progress when the series ends is not
flushed — appending a wholly qualifying tail to any scanned list leaves
the emitted events unchanged, whatever the run's length. -/
theorem varredura_sem_flush_final :
    ∀ (td : List DiaValor) (L : Option ℚ) (d : Nat) (l cauda : List DiaValor)
      (st : Option Int) (k : Nat),
      (∀ p ∈ cauda, acimaDe L p.2 = true) →
      varreduraCalor td L d (l ++ cauda) st k = varreduraCalor td L d l st k := by
  intro td L d l cauda st k h
  rw [varreduraCalor_append, varreduraCalor_qualificada td L d cauda _ _ h,
    List.append_nil]

/-- Witness for C7: a three-day qualifying run at the end of the input
produces no event. -/
theorem varredura_sem_flush_final_witness :
    varreduraCalor serieC3 (some 30) 3
        ([(4, some 10)] ++ [(5, some 31), (6, some 32), (7, some 33)]) none 0 =
      varreduraCalor serieC3 (some 30) 3 [(4, some 10)] none 0 := by
  refine varredura_sem_flush_final serieC3 (some 30) 3 [(4, some 10)]
    [(5, some 31), (6, some 32), (7, some 33)] none 0 ?_
  intro p hp
  simp only [List.mem_cons, List.not_mem_nil, or_false] at hp
  rcases hp with rfl | rfl | rfl <;> simp [acimaDe] <;> norm_num

/-! ### Claim C10: only observed days are scanned -/

theorem varredura_duracoes (td : List DiaValor) (L : Option ℚ) (d : Nat) :
    ∀ (l : List DiaValor) (st : Option Int) (k : Nat),
      (varreduraCalor td L d l st k).map (fun o => o.duracao) =
        duracoesPadrao d (l.map fun p => acimaDe L p.2) k := by
  intro l
  induction l with
  | nil => intro st k; rfl
  | cons p resto ih =>
    intro st k
    obtain ⟨data, v⟩ := p
    cases hq : acimaDe L v with
    | true =>
      rw [varreduraCalor_cons_pos hq, List.map_cons]
      show _ = duracoesPadrao d (acimaDe L v :: resto.map fun p => acimaDe L p.2) k
      rw [hq, duracoesPadrao, if_pos rfl]
      exact ih _ _
    | false =>
      have hpadrao : duracoesPadrao d (false :: resto.map fun p => acimaDe L p.2) k =
          (if d ≤ k then [k] else []) ++
            duracoesPadrao d (resto.map fun p => acimaDe L p.2) 0 := by
        rw [duracoesPadrao]
        simp
      rw [varreduraCalor_cons_neg hq, List.map_append,
        apply_ite (List.map fun o : OndaCalor => o.duracao)]
      show _ = duracoesPadrao d (acimaDe L v :: resto.map fun p => acimaDe L p.2) k
      rw [hq, hpadrao]
      by_cases hdk : d ≤ k
      · rw [if_pos hdk, if_pos hdk, ih]
        rfl
      · rw [if_neg hdk, if_neg hdk, ih]
        rfl

/-- C10: the heat scan iterates exactly over the days with at least one
observation — the daily-mean index is the ascending list of distinct
observed days — and the run structure of the scan (the durations of the
emitted events) is a function of the qualification pattern of those
observed days alone, so a calendar day with zero observations neither
breaks nor extends a run; on the concrete gapped series `serieC10` the
qualifying days 0, 2, 3 (days 1 and 4 absent) form a single three-day
run, emitted as one event. -/
theorem varredura_so_dias_observados :
    (∀ rows : List DiaValor,
      (temp_diaria rows).map Prod.fst = diasDistintos rows ∧
      ∀ dd : Int, dd ∈ diasDistintos rows ↔ dd ∈ rows.map Prod.fst) ∧
    (∀ (td : List DiaValor) (L : Option ℚ) (d : Nat) (l : List DiaValor)
        (st : Option Int) (k : Nat),
      (varreduraCalor td L d l st k).map (fun o => o.duracao) =
        duracoesPadrao d (l.map fun p => acimaDe L p.2) k) ∧
    varreduraCalor serieC10 (some 30) 3 serieC10 none 0 =
      [{ inicio := some 0, fim := 4, duracao := 3,
         temp_max := some 33, temp_media := some 32 }] := by
  refine ⟨?_, varredura_duracoes, ?_⟩
  · intro rows
    constructor
    · unfold temp_diaria
      rw [List.map_map]
      exact List.map_id _
    · intro dd
      unfold diasDistintos
      rw [(List.perm_insertionSort (· ≤ ·) (rows.map Prod.fst).dedup).mem_iff,
        List.mem_dedup]
  · norm_num [serieC10, varreduraCalor, acimaDe, fatiaDias, soValidos, serieMax,
      serieMean, List.filterMap_cons, max_def]

/-! ### Claim C6: events are disjoint and ordered -/

theorem existe_minorante : ∀ l : List DiaValor, ∃ m : Int, ∀ q ∈ l, m ≤ q.1 := by
  intro l
  induction l with
  | nil => exact ⟨0, by simp⟩
  | cons p resto ih =>
    obtain ⟨m, hm⟩ := ih
    refine ⟨min m p.1, ?_⟩
    intro q hq
    rcases List.mem_cons.mp hq with rfl | hq2
    · exact min_le_right _ _
    · exact le_trans (min_le_left _ _) (hm q hq2)

theorem varredura_ordenada (td : List DiaValor) (L : Option ℚ) (d : Nat)
    (hd : 1 ≤ d) :
    ∀ (l : List DiaValor) (st : Option Int) (k : Nat) (m : Int),
      List.Pairwise (fun p q : DiaValor => p.1 < q.1) l →
      (∀ p ∈ l, m ≤ p.1) →
      (∀ s : Int, st = some s → m ≤ s ∧ ∀ p ∈ l, s < p.1) →
      (1 ≤ k → st ≠ none) →
      List.Pairwise EventoAntes (varreduraCalor td L d l st k) ∧
      ∀ e ∈ varreduraCalor td L d l st k,
        ∃ se, e.inicio = some se ∧ m ≤ se ∧ se ≤ e.fim := by
  intro l
  induction l with
  | nil =>
    intro st k m _ _ _ _
    rw [varreduraCalor_nil]
    exact ⟨List.Pairwise.nil, by simp⟩
  | cons p resto ih =>
    intro st k m hsort hm hst hk
    obtain ⟨data, v⟩ := p
    rw [List.pairwise_cons] at hsort
    have hmdata : m ≤ data := hm (data, v) (List.mem_cons_self _ _)
    cases hq : acimaDe L v with
    | true =>
      rw [varreduraCalor_cons_pos hq]
      refine ih (some (st.getD data)) (k + 1) m hsort.2
        (fun q hq2 => hm q (List.mem_cons_of_mem _ hq2)) ?_ (fun _ => by simp)
      intro s hs
      cases hstc : st with
      | none =>
        rw [hstc] at hs
        simp only [Option.getD_none, Option.some.injEq] at hs
        subst hs
        exact ⟨hmdata, fun q hq2 => hsort.1 q hq2⟩
      | some s0 =>
        rw [hstc] at hs
        simp only [Option.getD_some, Option.some.injEq] at hs
        obtain ⟨hms, hsl⟩ := hst s0 hstc
        rw [← hs]
        exact ⟨hms, fun q hq2 => hsl q (List.mem_cons_of_mem _ hq2)⟩
    | false =>
      rw [varreduraCalor_cons_neg hq]
      have hih := ih none 0 (data + 1) hsort.2
        (fun q hq2 => by have := hsort.1 q hq2; omega)
        (fun s hs => by simp at hs)
        (fun h1 => absurd h1 (by omega))
      by_cases hdk : d ≤ k
      · rw [if_pos hdk]
        have hks : st ≠ none := hk (le_trans hd hdk)
        obtain ⟨s, hseq⟩ : ∃ s, st = some s := by
          cases hstc : st with
          | none => exact absurd hstc hks
          | some s0 => exact ⟨s0, rfl⟩
        obtain ⟨hms, hsl⟩ := hst s hseq
        have hsd : s < data := hsl (data, v) (List.mem_cons_self _ _)
        rw [List.singleton_append]
        constructor
        · rw [List.pairwise_cons]
          constructor
          · intro e he
            obtain ⟨se, hse, hmse, hsefim⟩ := hih.2 e he
            exact ⟨s, se, by rw [hseq], hse, by show s ≤ data - 1; omega, hsefim,
              by show data - 1 < se; omega⟩
          · exact hih.1
        · intro e he
          rcases List.mem_cons.mp he with rfl | he2
          · exact ⟨s, by rw [hseq], hms, by show s ≤ data - 1; omega⟩
          · obtain ⟨se, hse, hmse, hsefim⟩ := hih.2 e he2
            exact ⟨se, hse, by omega, hsefim⟩
      · rw [if_neg hdk, List.nil_append]
        refine ⟨hih.1, ?_⟩
        intro e he
        obtain ⟨se, hse, hmse, hsefim⟩ := hih.2 e he
        exact ⟨se, hse, by omega, hsefim⟩

theorem temp_diaria_ordenada (rows : List DiaValor) :
    List.Pairwise (fun p q : DiaValor => p.1 < q.1) (temp_diaria rows) := by
  unfold temp_diaria
  rw [List.pairwise_map]
  have hsorted : List.Sorted (· ≤ ·) (diasDistintos rows) :=
    List.sorted_insertionSort _ _
  have hnodup : (diasDistintos rows).Nodup :=
    (List.perm_insertionSort (· ≤ ·) (rows.map Prod.fst).dedup).symm.nodup
      (List.nodup_dedup _)
  exact List.Sorted.lt_of_le hsorted hnodup

/-- C6: for every input and every minimum run length of at least one day,
the events emitted by the heat detector are pairwise ordered and disjoint:
each event carries a start day no later than its end day, and each earlier
event's whole interval lies strictly before every later event's start, so
the intervals never overlap and the start dates are non-decreasing. -/
theorem detectar_ondas_nao_sobrepoe :
    ∀ (rows : List DiaValor) (p : ℚ) (d : Nat), 1 ≤ d →
      List.Pairwise EventoAntes (detectar_ondas_calor rows p d) := by
  intro rows p d hd
  unfold detectar_ondas_calor
  obtain ⟨m, hm⟩ := existe_minorante (temp_diaria rows)
  exact (varredura_ordenada (temp_diaria rows) (limiarCalor rows p) d hd
    (temp_diaria rows) none 0 m (temp_diaria_ordenada rows) hm
    (fun s hs => by simp at hs) (fun h1 => absurd h1 (by omega))).1

/-- Witness for C6 at the concrete series `serieC2` with the default run
length 3. -/
theorem detectar_ondas_nao_sobrepoe_witness :
    List.Pairwise EventoAntes (detectar_ondas_calor serieC2 90 3) :=
  detectar_ondas_nao_sobrepoe serieC2 90 3 (by omega)
